import Mathlib

/-!
Shallow embedding of the exam-session application
(`src/components/ExamView.tsx`, `src/components/ResultsOverlay.tsx`,
`src/App.tsx`, `src/types.ts`).

JavaScript `Record<string, V>` objects are modelled as ordered association
lists with unique keys: the spread-update `{ ...prev, [k]: v }` keeps the
position of an existing key and appends a fresh key at the end, which is
JS insertion-order semantics for non-integer-like string keys (all keys
used by the program are question ids and premise texts).
-/

namespace ExamApp

/-- `src/types.ts` — enum QuestionType. -/
inductive QuestionType where
  | MCQ
  | TRUE_FALSE
  | FILL_BLANK
  | WORKOUT
  | MATCHING
deriving DecidableEq, Repr

/-- `src/types.ts` — the `{ left, right }` entries of `matchingPairs`. -/
structure MatchingPair where
  left : String
  right : String
deriving DecidableEq, Repr

/-- `src/types.ts` — interface Question. -/
structure Question where
  id : String
  type : QuestionType
  questionText : String
  options : Option (List String)
  matchingPairs : Option (List MatchingPair)
  correctAnswer : String
  points : ℚ
deriving DecidableEq, Repr

/-- `src/types.ts` — interface Exam. -/
structure Exam where
  id : String
  title : String
  questions : List Question
  createdAt : ℕ
deriving DecidableEq, Repr

/-- `src/types.ts` — interface FeedbackItem. -/
structure FeedbackItem where
  questionId : String
  isCorrect : Bool
  pointsEarned : ℚ
  correctAnswer : Option String
  explanation : Option String
deriving DecidableEq, Repr

/-- `src/types.ts` — interface GradingResult. -/
structure GradingResult where
  score : ℚ
  totalPoints : ℚ
  feedback : List FeedbackItem
deriving DecidableEq, Repr

/-! ### JS object primitives -/

/-- Property read `m[k]` on a JS object modelled as an assoc list. -/
def alookup {α : Type} (k : String) : List (String × α) → Option α
  | [] => none
  | (k', v) :: rest => if k' = k then some v else alookup k rest

/-- Spread update `{ ...m, [k]: v }`: replace in place if the key exists,
append at the end otherwise. -/
def objSet {α : Type} (m : List (String × α)) (k : String) (v : α) :
    List (String × α) :=
  if k ∈ m.map Prod.fst then
    m.map (fun p => if p.1 = k then (k, v) else p)
  else
    m ++ [(k, v)]

/-! ### JSON serialization (`JSON.stringify` on string-valued objects) -/

/-- Escape of one character inside a JSON string literal. -/
def jsonEscapeChar (c : Char) : String :=
  if c = '"' then "\\\""
  else if c = '\\' then "\\\\"
  else if c = '\n' then "\\n"
  else if c = '\r' then "\\r"
  else if c = '\t' then "\\t"
  else String.mk [c]

/-- `JSON.stringify` of a string value. -/
def jsonQuote (s : String) : String :=
  "\"" ++ String.join (s.toList.map jsonEscapeChar) ++ "\""

/-- `JSON.stringify` of a string-to-string object, in key insertion order. -/
def jsonStringifyObj (m : List (String × String)) : String :=
  "\x7b" ++ String.intercalate "," (m.map fun p => jsonQuote p.1 ++ ":" ++ jsonQuote p.2) ++ "\x7d"

/-! ### ExamView session state (`src/components/ExamView.tsx`) -/

/-- One entry of the memoized `matchingOptions` lists: a shuffled response
with its assigned label (`{ id: String.fromCharCode(65 + idx), text }`). -/
structure LabeledOption where
  id : String
  text : String
deriving DecidableEq, Repr

/-- Label assigned to shuffled position `idx`: `String.fromCharCode(65 + idx)`. -/
def labelOf (idx : ℕ) : String :=
  String.mk [Char.ofNat (65 + idx)]

/-- `matchingOptions` entry for one question (ExamView.tsx lines 24-34):
take the `right` texts, shuffle them, and label them `A`, `B`, `C`, … by
shuffled position.  The outcome of the random comparator sort is modelled
by an explicit `shuffle` function; ECMAScript `Array.prototype.sort`
always returns a permutation of its input, which is imposed on `shuffle`
as a hypothesis where it matters. -/
def mkMatchingOptions (shuffle : List String → List String) (q : Question) :
    List LabeledOption :=
  match q.matchingPairs with
  | some ps =>
      let rightSide := ps.map (·.right)
      let shuffled := shuffle rightSide
      shuffled.enum.map fun p => { id := labelOf p.1, text := p.2 }
  | none => []

/-- The whole memoized `matchingOptions` map (ExamView.tsx lines 22-37),
built over the exam's questions; only `MATCHING` questions with a present
`matchingPairs` field get an entry. -/
def mkMatchingOptionsMap (shuffle : List String → List String) (exam : Exam) :
    List (String × List LabeledOption) :=
  exam.questions.foldl
    (fun acc q =>
      if q.type = QuestionType.MATCHING ∧ q.matchingPairs.isSome then
        objSet acc q.id (mkMatchingOptions shuffle q)
      else acc)
    []

/-- The transient per-attempt state of `ExamView` (its `useState` hooks),
plus a `submitted`/`handed` pair recording the `onSubmit(answers)` hand-off. -/
structure Session where
  currentIndex : ℕ
  answers : List (String × String)
  flags : List String
  timeLeft : ℤ
  matchingState : List (String × List (String × String))
  matchingOpts : List (String × List LabeledOption)
  submitted : Bool
  handed : Option (List (String × String))
deriving DecidableEq, Repr

/-- Initial session state on exam load: index 0, empty answers and flags,
`timeLeft = questions.length * 90`, memoized matching options. -/
def initSession (shuffle : List String → List String) (exam : Exam) : Session :=
  { currentIndex := 0
    answers := []
    flags := []
    timeLeft := (exam.questions.length : ℤ) * 90
    matchingState := []
    matchingOpts := mkMatchingOptionsMap shuffle exam
    submitted := false
    handed := none }

/-- `handleInputChange` (ExamView.tsx lines 65-67):
`setAnswers(prev => ({ ...prev, [questionId]: value }))`. -/
def handleInputChange (s : Session) (questionId value : String) : Session :=
  { s with answers := objSet s.answers questionId value }

/-- `handleMatchingChange` (ExamView.tsx lines 69-78).  It spreads the OLD
auxiliary label state `qState` when building the JSON answer, resolving
only the just-changed left item to its response text; the auxiliary state
itself is updated with the chosen label. -/
def handleMatchingChange (s : Session) (questionId leftItem rightValue : String) :
    Session :=
  let qState := (alookup questionId s.matchingState).getD []
  let newState := objSet qState leftItem rightValue
  let rightText :=
    match ((alookup questionId s.matchingOpts).getD []).find?
        (fun o => o.id == rightValue) with
    | some o => o.text
    | none => ""
  let jsonAnswer := jsonStringifyObj (objSet qState leftItem rightText)
  let s' := handleInputChange s questionId jsonAnswer
  { s' with matchingState := objSet s.matchingState questionId newState }

/-- `toggleFlag` (ExamView.tsx lines 80-87): set-toggle on the flagged ids. -/
def toggleFlag (s : Session) (questionId : String) : Session :=
  { s with flags :=
      if questionId ∈ s.flags then s.flags.filter (fun x => x ≠ questionId)
      else questionId :: s.flags }

/-- The user-interface events that mutate session state.  `record`,
`matchingSel` and `flag` carry the index of the question whose widget was
used (the widgets always act on `currentQuestion.id`, hence on an existing
question); `jump` is a click on a palette cell, which exists only for
indices of actual questions. -/
inductive Op where
  | tick
  | record (i : ℕ) (value : String)
  | matchingSel (i : ℕ) (leftItem rightValue : String)
  | flag (i : ℕ)
  | prev
  | next
  | jump (i : ℕ)
  | submit
deriving DecidableEq, Repr

/-- Is this the explicit submit event? -/
def isSubmit : Op → Bool
  | Op.submit => true
  | _ => false

/-- One step of the session state machine:
* `tick` — the timer effect (lines 56-62): no-op once `timeLeft ≤ 0`
  (the interval is not installed), else `setTimeLeft(Math.max(0, prev - 1))`;
* `record` — `handleInputChange` on the indexed question's id;
* `matchingSel` — `handleMatchingChange`; the matching widget is only
  rendered when the question is MATCHING and has memoized options
  (line 235), hence the guard;
* `flag` — `toggleFlag`;
* `prev` — `setCurrentIndex(prev => Math.max(0, prev - 1))` (line 279);
* `next` — `setCurrentIndex(prev => Math.min(length - 1, prev + 1))` (line 306);
* `jump` — palette click `setCurrentIndex(idx)` for an existing question
  index (line 339);
* `submit` — `onSubmit(answers)` (lines 297, 372): hands the current
  answers object to the caller, with no precondition on how many
  questions are answered. -/
def step (exam : Exam) (s : Session) : Op → Session
  | Op.tick =>
      if s.timeLeft ≤ 0 then s
      else { s with timeLeft := max 0 (s.timeLeft - 1) }
  | Op.record i v =>
      match exam.questions[i]? with
      | some q => handleInputChange s q.id v
      | none => s
  | Op.matchingSel i l r =>
      match exam.questions[i]? with
      | some q =>
          if q.type = QuestionType.MATCHING ∧ (alookup q.id s.matchingOpts).isSome
          then handleMatchingChange s q.id l r
          else s
      | none => s
  | Op.flag i =>
      match exam.questions[i]? with
      | some q => toggleFlag s q.id
      | none => s
  | Op.prev => { s with currentIndex := s.currentIndex - 1 }
  | Op.next => { s with currentIndex := min (exam.questions.length - 1) (s.currentIndex + 1) }
  | Op.jump i =>
      if i < exam.questions.length then { s with currentIndex := i } else s
  | Op.submit => { s with submitted := true, handed := some s.answers }

/-- Run a sequence of user-interface events. -/
def runOps (exam : Exam) (ops : List Op) (s : Session) : Session :=
  ops.foldl (step exam) s

/-- `Math.round` on a rational: round to nearest, ties toward `+∞`
(ECMAScript `Math.round(x) = ⌊x + 1/2⌋`). -/
def jsRound (q : ℚ) : ℤ :=
  ⌊q + 1 / 2⌋

/-- Which question ids an event records an answer for: `record` writes the
indexed question's id; `matchingSel` does so provided the question is a
matching question with memoized options (otherwise its widget is not
rendered and the event is a no-op); no other event touches the answers
object. -/
def opRecords (exam : Exam) (mopts : List (String × List LabeledOption))
    (op : Op) (k : String) : Prop :=
  match op with
  | Op.record i _ => ∃ q, exam.questions[i]? = some q ∧ q.id = k
  | Op.matchingSel i _ _ => ∃ q, exam.questions[i]? = some q ∧ q.id = k ∧
      q.type = QuestionType.MATCHING ∧ (alookup q.id mopts).isSome = true
  | _ => False

/-- The displayed progress metric (ExamView.tsx line 96):
`Math.round((Object.keys(answers).length / exam.questions.length) * 100)`;
the key count of the answers object is the length of the (unique-keyed)
assoc list. -/
def progress (exam : Exam) (s : Session) : ℤ :=
  jsRound (((s.answers.length : ℚ) / (exam.questions.length : ℚ)) * 100)

/-- Number of the exam's questions that have some entry (possibly the
empty string) in the answers mapping; used to relate the code's key count
to a per-question count. -/
def entryCount (exam : Exam) (answers : List (String × String)) : ℕ :=
  (exam.questions.filter (fun q => (alookup q.id answers).isSome)).length

/-- Spec-side progress metric, following the spec's words ("the fraction
of questions that have a *non-empty* entry in the answers mapping, as a
percentage, rounded to the nearest integer"); to be compared with the
code's `progress`. -/
def specProgress (exam : Exam) (answers : List (String × String)) : ℤ :=
  jsRound ((((exam.questions.filter
      (fun q => ((alookup q.id answers).getD "") ≠ "")).length : ℚ) /
    (exam.questions.length : ℚ)) * 100)

/-! ### Results overlay (`src/components/ResultsOverlay.tsx`) -/

/-- `percentage = Math.round((results.score / results.totalPoints) * 100)`
(ResultsOverlay.tsx line 13). -/
def resultPercentage (r : GradingResult) : ℤ :=
  jsRound ((r.score / r.totalPoints) * 100)

/-- `getGrade` (ResultsOverlay.tsx lines 15-21). -/
def getGrade (pct : ℤ) : String :=
  if pct ≥ 90 then "A+"
  else if pct ≥ 80 then "A"
  else if pct ≥ 70 then "B"
  else if pct ≥ 60 then "C"
  else "F"

/-- `isPassed = percentage >= 60` (ResultsOverlay.tsx line 24). -/
def isPassed (r : GradingResult) : Bool :=
  decide (resultPercentage r ≥ 60)

/-! ### Application shell (`src/App.tsx`) -/

/-- The `loadingStatus` state: `'idle' | 'parsing' | 'grading'`. -/
inductive LoadingStatus where
  | idle
  | parsing
  | grading
deriving DecidableEq, Repr

/-- The `App` component's state (its `useState` hooks; `manualKey`, a text
field mirrored verbatim into the banner input, is omitted as it takes no
part in any transition below). -/
structure AppState where
  loadingStatus : LoadingStatus
  exam : Option Exam
  results : Option GradingResult
  error : Option String
  history : List Exam
  apiKeyMissing : Bool
deriving DecidableEq, Repr

/-- `err.message?.includes('Key')` — substring test on the error text. -/
def mentionsKey (msg : String) : Bool :=
  decide ("Key".toList <:+: msg.toList)

/-- `handleProcessInput` (App.tsx lines 59-83), with the awaited outcome of
`parseExamFromText` made explicit: success stores the parsed exam, clears
the error, clears `apiKeyMissing` and prepends to history unless an exam
with the same id already exists; failure only records the error message
(and flags a missing key when the message mentions one).  Both paths end
with `loadingStatus` back at `idle` (the `finally` block). -/
def handleProcessInput (st : AppState) (outcome : Except String Exam) : AppState :=
  match outcome with
  | Except.ok parsedExam =>
      { st with
        loadingStatus := LoadingStatus.idle
        error := none
        exam := some parsedExam
        apiKeyMissing := false
        history :=
          if st.history.any (fun h => h.id == parsedExam.id) then st.history
          else parsedExam :: st.history }
  | Except.error msg =>
      { st with
        loadingStatus := LoadingStatus.idle
        error := some msg
        apiKeyMissing := if mentionsKey msg then true else st.apiKeyMissing }

/-- `handleRenameExam` (App.tsx lines 91-98): map over history replacing
the title of the exam with the given id; also retitle the currently
loaded exam when it is the renamed one. -/
def handleRenameExam (st : AppState) (id newTitle : String) : AppState :=
  { st with
    history := st.history.map (fun item =>
      if item.id = id then { item with title := newTitle } else item)
    exam :=
      match st.exam with
      | some e => if e.id = id then some { e with title := newTitle } else some e
      | none => none }

/-- `handleDeleteExam` (App.tsx lines 100-102). -/
def handleDeleteExam (st : AppState) (id : String) : AppState :=
  { st with history := st.history.filter (fun item => item.id ≠ id) }

/-- `handleSubmitExam` (App.tsx lines 104-115), with the awaited outcome of
`gradeExam` made explicit: a no-op when no exam is loaded; success stores
the grading result; failure only records the error message.  Both paths
end with `loadingStatus` back at `idle` (the `finally` block).  The
attempt's answers live in the still-mounted `ExamView`'s `Session` and are
not part of this state, so a failed grade cannot touch them. -/
def handleSubmitExam (st : AppState) (outcome : Except String GradingResult) :
    AppState :=
  match st.exam with
  | none => st
  | some _ =>
      match outcome with
      | Except.ok grading =>
          { st with loadingStatus := LoadingStatus.idle, results := some grading }
      | Except.error msg =>
          { st with loadingStatus := LoadingStatus.idle, error := some msg }

/-- Invariant of the answers object: its keys are unique and every key is
the id of one of the exam's questions (answers are only ever written
through a question's widget). -/
def goodKeys (exam : Exam) (m : List (String × String)) : Prop :=
  (m.map Prod.fst).Nodup ∧
  ∀ k ∈ m.map Prod.fst, k ∈ exam.questions.map Question.id

/-! ### Concrete test fixtures -/

/-- Matching pairs of the concrete matching question. -/
def psM : List MatchingPair :=
  [⟨"x", "alpha"⟩, ⟨"y", "beta"⟩]

/-- A concrete matching question: premises `x`, `y` with responses
`alpha`, `beta`. -/
def qM : Question :=
  { id := "q1", type := QuestionType.MATCHING, questionText := "Match them",
    options := none, matchingPairs := some psM,
    correctAnswer := "", points := 1 }

/-- A one-question matching exam. -/
def exMatching : Exam :=
  { id := "e-match", title := "Matching", createdAt := 0, questions := [qM] }

/-- A one-question fill-in-the-blank exam. -/
def exFill : Exam :=
  { id := "e-fill", title := "Fill", createdAt := 0,
    questions := [
      { id := "q1", type := QuestionType.FILL_BLANK, questionText := "Capital?",
        options := none, matchingPairs := none,
        correctAnswer := "Paris", points := 1 }] }

/-- The spec's end-to-end scenario exam: Q1 multiple choice
(Paris/London, 1 point), Q2 true/false (canonical True, 1 point). -/
def exTwo : Exam :=
  { id := "e-two", title := "Scenario", createdAt := 0,
    questions := [
      { id := "q1", type := QuestionType.MCQ, questionText := "Capital of France?",
        options := some ["Paris", "London"], matchingPairs := none,
        correctAnswer := "Paris", points := 1 },
      { id := "q2", type := QuestionType.TRUE_FALSE, questionText := "1 + 1 = 2?",
        options := none, matchingPairs := none,
        correctAnswer := "True", points := 1 }] }

/-- The grading result of the spec's scenario: Q1 correct for 1 point,
Q2 incorrect for 0, total 1 of 2. -/
def rScenario : GradingResult :=
  { score := 1, totalPoints := 2,
    feedback := [
      { questionId := "q1", isCorrect := true, pointsEarned := 1,
        correctAnswer := some "Paris", explanation := none },
      { questionId := "q2", isCorrect := false, pointsEarned := 0,
        correctAnswer := some "True", explanation := none }] }

/-- An application state with one exam in the history and that exam loaded. -/
def stApp : AppState :=
  { loadingStatus := LoadingStatus.idle, exam := some exTwo, results := none,
    error := none, history := [exTwo], apiKeyMissing := false }

/-- `exTwo` after renaming its title. -/
def exTwoRenamed : Exam :=
  { exTwo with title := "Renamed" }

/-! ## Lemmas about the JS object primitives -/

theorem objSet_keys {α : Type} (m : List (String × α)) (k : String) (v : α) :
    (objSet m k v).map Prod.fst =
      if k ∈ m.map Prod.fst then m.map Prod.fst else m.map Prod.fst ++ [k] := by
  unfold objSet
  split
  · have h : (Prod.fst ∘ fun p : String × α => if p.1 = k then (k, v) else p)
        = Prod.fst := by
      funext p
      by_cases hp : p.1 = k <;> simp [hp]
    rw [List.map_map, h]
  · simp

theorem mem_keys_objSet {α : Type} (m : List (String × α)) (k a : String) (v : α) :
    a ∈ (objSet m k v).map Prod.fst ↔ a ∈ m.map Prod.fst ∨ a = k := by
  rw [objSet_keys]
  split
  · next h => exact ⟨Or.inl, fun ha => ha.elim id (fun e => e ▸ h)⟩
  · simp

theorem nodup_keys_objSet {α : Type} (m : List (String × α)) (k : String) (v : α)
    (h : (m.map Prod.fst).Nodup) : ((objSet m k v).map Prod.fst).Nodup := by
  rw [objSet_keys]
  split
  · exact h
  · next hk => simp [List.nodup_append, h, hk]

theorem length_objSet {α : Type} (m : List (String × α)) (k : String) (v : α) :
    (objSet m k v).length =
      if k ∈ m.map Prod.fst then m.length else m.length + 1 := by
  rw [← List.length_map (objSet m k v) Prod.fst, objSet_keys]
  split <;> simp

theorem alookup_cons {α : Type} (a : String) (b : α) (tl : List (String × α))
    (k : String) :
    alookup k ((a, b) :: tl) = if a = k then some b else alookup k tl := rfl

theorem alookup_map_set {α : Type} (m : List (String × α)) (k : String) (v : α)
    (hk : k ∈ m.map Prod.fst) :
    alookup k (m.map fun p => if p.1 = k then (k, v) else p) = some v := by
  induction m with
  | nil => simp at hk
  | cons hd tl ih =>
    obtain ⟨a, b⟩ := hd
    rw [List.map_cons]
    by_cases h : a = k
    · have hf : (if (a, b).1 = k then (k, v) else (a, b)) = (k, v) := if_pos h
      rw [hf, alookup_cons, if_pos rfl]
    · have hf : (if (a, b).1 = k then (k, v) else (a, b)) = (a, b) := if_neg h
      rw [hf, alookup_cons, if_neg h]
      apply ih
      simp only [List.map_cons, List.mem_cons] at hk
      rcases hk with h1 | h2
      · exact absurd h1.symm h
      · exact h2

theorem alookup_append_single {α : Type} (m : List (String × α)) (k : String) (v : α)
    (hk : k ∉ m.map Prod.fst) :
    alookup k (m ++ [(k, v)]) = some v := by
  induction m with
  | nil => simp [alookup_cons]
  | cons hd tl ih =>
    obtain ⟨a, b⟩ := hd
    simp only [List.map_cons, List.mem_cons, not_or] at hk
    rw [List.cons_append, alookup_cons, if_neg (fun e => hk.1 e.symm)]
    exact ih hk.2

theorem alookup_objSet_self {α : Type} (m : List (String × α)) (k : String) (v : α) :
    alookup k (objSet m k v) = some v := by
  unfold objSet
  split
  · next h => exact alookup_map_set m k v h
  · next h => exact alookup_append_single m k v h

theorem alookup_map_set_ne {α : Type} (m : List (String × α)) (k k' : String) (v : α)
    (h : k' ≠ k) :
    alookup k' (m.map fun p => if p.1 = k then (k, v) else p) = alookup k' m := by
  induction m with
  | nil => simp
  | cons hd tl ih =>
    obtain ⟨a, b⟩ := hd
    rw [List.map_cons]
    by_cases hh : a = k
    · have hf : (if (a, b).1 = k then (k, v) else (a, b)) = (k, v) := if_pos hh
      have ha : a ≠ k' := by rw [hh]; exact Ne.symm h
      rw [hf, alookup_cons, if_neg (Ne.symm h), alookup_cons, if_neg ha, ih]
    · have hf : (if (a, b).1 = k then (k, v) else (a, b)) = (a, b) := if_neg hh
      rw [hf, alookup_cons, alookup_cons, ih]

theorem alookup_append_single_ne {α : Type} (m : List (String × α))
    (k k' : String) (v : α) (h : k' ≠ k) :
    alookup k' (m ++ [(k, v)]) = alookup k' m := by
  induction m with
  | nil => simp [alookup_cons, if_neg (Ne.symm h), alookup]
  | cons hd tl ih =>
    obtain ⟨a, b⟩ := hd
    rw [List.cons_append, alookup_cons, alookup_cons, ih]

theorem alookup_objSet_ne {α : Type} (m : List (String × α)) (k k' : String) (v : α)
    (h : k' ≠ k) :
    alookup k' (objSet m k v) = alookup k' m := by
  unfold objSet
  split
  · exact alookup_map_set_ne m k k' v h
  · exact alookup_append_single_ne m k k' v h

theorem alookup_isSome_iff {α : Type} (m : List (String × α)) (k : String) :
    (alookup k m).isSome = true ↔ k ∈ m.map Prod.fst := by
  induction m with
  | nil => simp [alookup]
  | cons hd tl ih =>
    obtain ⟨a, b⟩ := hd
    rw [alookup_cons, List.map_cons]
    by_cases h : a = k
    · subst h
      simp
    · have h' : ¬k = a := fun e => h e.symm
      simp [if_neg h, ih, h']

/-! ## Frame lemmas for the session step function -/

theorem step_matchingOpts (exam : Exam) (s : Session) (op : Op) :
    (step exam s op).matchingOpts = s.matchingOpts := by
  cases op with
  | tick => by_cases h : s.timeLeft ≤ 0 <;> simp [step, h]
  | record i v => cases h : exam.questions[i]? <;> simp [step, h, handleInputChange]
  | matchingSel i l r =>
      cases h : exam.questions[i]? with
      | none => simp [step, h]
      | some q =>
          by_cases hg : q.type = QuestionType.MATCHING ∧
              (alookup q.id s.matchingOpts).isSome = true <;>
            simp [step, h, hg, handleMatchingChange, handleInputChange]
  | flag i => cases h : exam.questions[i]? <;> simp [step, h, toggleFlag]
  | prev => simp [step]
  | next => simp [step]
  | jump i => by_cases h : i < exam.questions.length <;> simp [step, h]
  | submit => simp [step]

theorem runOps_matchingOpts (exam : Exam) (ops : List Op) (s : Session) :
    (runOps exam ops s).matchingOpts = s.matchingOpts := by
  induction ops generalizing s with
  | nil => rfl
  | cons op ops ih =>
      show (runOps exam ops (step exam s op)).matchingOpts = s.matchingOpts
      rw [ih, step_matchingOpts]

theorem step_timeLeft_le (exam : Exam) (s : Session) (op : Op) :
    (step exam s op).timeLeft ≤ s.timeLeft := by
  cases op with
  | tick =>
      by_cases h : s.timeLeft ≤ 0
      · simp [step, h]
      · simp only [step, if_neg h]
        omega
  | record i v => cases h : exam.questions[i]? <;> simp [step, h, handleInputChange]
  | matchingSel i l r =>
      cases h : exam.questions[i]? with
      | none => simp [step, h]
      | some q =>
          by_cases hg : q.type = QuestionType.MATCHING ∧
              (alookup q.id s.matchingOpts).isSome = true <;>
            simp [step, h, hg, handleMatchingChange, handleInputChange]
  | flag i => cases h : exam.questions[i]? <;> simp [step, h, toggleFlag]
  | prev => simp [step]
  | next => simp [step]
  | jump i => by_cases h : i < exam.questions.length <;> simp [step, h]
  | submit => simp [step]

theorem step_timeLeft_nonneg (exam : Exam) (s : Session) (op : Op)
    (h0 : 0 ≤ s.timeLeft) : 0 ≤ (step exam s op).timeLeft := by
  cases op with
  | tick =>
      by_cases h : s.timeLeft ≤ 0
      · simpa [step, h] using h0
      · simp only [step, if_neg h]
        omega
  | record i v => cases h : exam.questions[i]? <;> simpa [step, h, handleInputChange] using h0
  | matchingSel i l r =>
      cases h : exam.questions[i]? with
      | none => simpa [step, h] using h0
      | some q =>
          by_cases hg : q.type = QuestionType.MATCHING ∧
              (alookup q.id s.matchingOpts).isSome = true <;>
            simpa [step, h, hg, handleMatchingChange, handleInputChange] using h0
  | flag i => cases h : exam.questions[i]? <;> simpa [step, h, toggleFlag] using h0
  | prev => simpa [step] using h0
  | next => simpa [step] using h0
  | jump i => by_cases h : i < exam.questions.length <;> simpa [step, h] using h0
  | submit => simpa [step] using h0

theorem runOps_timeLeft_le (exam : Exam) (ops : List Op) (s : Session) :
    (runOps exam ops s).timeLeft ≤ s.timeLeft := by
  induction ops generalizing s with
  | nil => exact le_refl _
  | cons op ops ih =>
      exact le_trans (ih (step exam s op)) (step_timeLeft_le exam s op)

theorem runOps_timeLeft_nonneg (exam : Exam) (ops : List Op) (s : Session)
    (h0 : 0 ≤ s.timeLeft) : 0 ≤ (runOps exam ops s).timeLeft := by
  induction ops generalizing s with
  | nil => exact h0
  | cons op ops ih =>
      exact ih (step exam s op) (step_timeLeft_nonneg exam s op h0)

theorem step_submitted (exam : Exam) (s : Session) (op : Op) :
    (step exam s op).submitted = (s.submitted || isSubmit op) := by
  cases op with
  | tick => by_cases h : s.timeLeft ≤ 0 <;> simp [step, h, isSubmit]
  | record i v => cases h : exam.questions[i]? <;> simp [step, h, handleInputChange, isSubmit]
  | matchingSel i l r =>
      cases h : exam.questions[i]? with
      | none => simp [step, h, isSubmit]
      | some q =>
          by_cases hg : q.type = QuestionType.MATCHING ∧
              (alookup q.id s.matchingOpts).isSome = true <;>
            simp [step, h, hg, handleMatchingChange, handleInputChange, isSubmit]
  | flag i => cases h : exam.questions[i]? <;> simp [step, h, toggleFlag, isSubmit]
  | prev => simp [step, isSubmit]
  | next => simp [step, isSubmit]
  | jump i => by_cases h : i < exam.questions.length <;> simp [step, h, isSubmit]
  | submit => simp [step, isSubmit]

theorem runOps_submitted (exam : Exam) (ops : List Op) (s : Session) :
    (runOps exam ops s).submitted = (s.submitted || ops.any isSubmit) := by
  induction ops generalizing s with
  | nil => simp [runOps]
  | cons op ops ih =>
      show (runOps exam ops (step exam s op)).submitted = _
      rw [ih, step_submitted]
      simp [Bool.or_assoc]

theorem step_currentIndex (exam : Exam) (s : Session) (op : Op) :
    (step exam s op).currentIndex =
      match op with
      | Op.prev => s.currentIndex - 1
      | Op.next => min (exam.questions.length - 1) (s.currentIndex + 1)
      | Op.jump j => if j < exam.questions.length then j else s.currentIndex
      | _ => s.currentIndex := by
  cases op with
  | tick => by_cases h : s.timeLeft ≤ 0 <;> simp [step, h]
  | record i v => cases h : exam.questions[i]? <;> simp [step, h, handleInputChange]
  | matchingSel i l r =>
      cases h : exam.questions[i]? with
      | none => simp [step, h]
      | some q =>
          by_cases hg : q.type = QuestionType.MATCHING ∧
              (alookup q.id s.matchingOpts).isSome = true <;>
            simp [step, h, hg, handleMatchingChange, handleInputChange]
  | flag i => cases h : exam.questions[i]? <;> simp [step, h, toggleFlag]
  | prev => simp [step]
  | next => simp [step]
  | jump i => by_cases h : i < exam.questions.length <;> simp [step, h]
  | submit => simp [step]

/-! ## Claim C2 — timer initialization and monotonicity -/

/-- C2: for an exam with `N` questions the session timer starts at exactly
`90 * N` seconds; over any run of events the remaining time never
increases and never goes below 0; from any reachable (non-negative) state
a tick sets the time to `max 0 (t - 1)` (decrement floored at zero); and
the session is submitted after a run exactly when the run contains an
explicit submit event — reaching zero never triggers a submission. -/
theorem timer_init_monotone_no_autosubmit
    (shuffle : List String → List String) (exam : Exam) (ops extra : List Op) :
    (initSession shuffle exam).timeLeft = 90 * (exam.questions.length : ℤ) ∧
    (runOps exam (ops ++ extra) (initSession shuffle exam)).timeLeft ≤
      (runOps exam ops (initSession shuffle exam)).timeLeft ∧
    0 ≤ (runOps exam ops (initSession shuffle exam)).timeLeft ∧
    (∀ s : Session, 0 ≤ s.timeLeft →
      (step exam s Op.tick).timeLeft = max 0 (s.timeLeft - 1)) ∧
    (runOps exam ops (initSession shuffle exam)).submitted = ops.any isSubmit := by
  refine ⟨by simp [initSession, mul_comm], ?_, ?_, ?_, ?_⟩
  · show ((ops ++ extra).foldl (step exam) _).timeLeft ≤ _
    rw [List.foldl_append]
    exact runOps_timeLeft_le exam extra _
  · refine runOps_timeLeft_nonneg exam ops _ ?_
    simp only [initSession]
    positivity
  · intro s hs
    by_cases h : s.timeLeft ≤ 0
    · have h0 : s.timeLeft = 0 := le_antisymm h hs
      simp [step, h, h0]
    · simp only [step, if_neg h]
  · rw [runOps_submitted]
    simp [initSession]

/-- Witness for C2 at a concrete one-question exam. -/
theorem timer_init_monotone_no_autosubmit_witness :
    (0 : ℤ) ≤ (initSession id exFill).timeLeft ∧
    (initSession id exFill).timeLeft = 90 * (exFill.questions.length : ℤ) ∧
    (step exFill (initSession id exFill) Op.tick).timeLeft =
      max 0 ((initSession id exFill).timeLeft - 1) := by
  have h := timer_init_monotone_no_autosubmit id exFill [] []
  exact ⟨by decide, h.1, h.2.2.2.1 _ (by decide)⟩

/-! ## Claim C5 — RecordAnswer overwrites and frames -/

/-- C5: recording answer `a` then answer `b` for the same question id
leaves exactly `b` recorded for that id and does not disturb any other
id's answer; recording an answer changes neither the current question
index nor the remaining time. -/
theorem recordAnswer_overwrite (s : Session) (qid a b : String) :
    alookup qid (handleInputChange (handleInputChange s qid a) qid b).answers
      = some b ∧
    (∀ k, k ≠ qid →
      alookup k (handleInputChange (handleInputChange s qid a) qid b).answers
        = alookup k s.answers) ∧
    (∀ v, (handleInputChange s qid v).currentIndex = s.currentIndex) ∧
    (∀ v, (handleInputChange s qid v).timeLeft = s.timeLeft) := by
  refine ⟨alookup_objSet_self _ _ _, ?_, fun v => rfl, fun v => rfl⟩
  intro k hk
  show alookup k (objSet (objSet s.answers qid a) qid b) = _
  rw [alookup_objSet_ne _ _ _ _ hk, alookup_objSet_ne _ _ _ _ hk]

/-- Witness for C5 on a concrete session. -/
theorem recordAnswer_overwrite_witness :
    alookup "q1" (handleInputChange
      (handleInputChange (initSession id exFill) "q1" "Lyon") "q1" "Paris").answers
      = some "Paris" ∧
    ("other" ≠ "q1") ∧
    alookup "other" (handleInputChange
      (handleInputChange (initSession id exFill) "q1" "Lyon") "q1" "Paris").answers
      = alookup "other" (initSession id exFill).answers := by
  have h := recordAnswer_overwrite (initSession id exFill) "q1" "Lyon" "Paris"
  exact ⟨h.1, by decide, h.2.1 "other" (by decide)⟩

/-! ## Claim C6 — navigation stays in range -/

/-- C6: with at least one question and a valid current index, every event
leaves the current index within `[0, N-1]`; `prev` and `next` clamp at the
ends, a palette jump to an existing index lands exactly there and an
out-of-range jump has no effect; and no event's effect on the current
index depends on the answers mapping (navigation never requires the
current question to be answered). -/
theorem navigation_clamped (exam : Exam) (s : Session)
    (hN : 1 ≤ exam.questions.length)
    (hs : s.currentIndex < exam.questions.length) :
    (∀ op, (step exam s op).currentIndex < exam.questions.length) ∧
    (step exam s Op.prev).currentIndex = s.currentIndex - 1 ∧
    (step exam s Op.next).currentIndex =
      min (exam.questions.length - 1) (s.currentIndex + 1) ∧
    (∀ j, j < exam.questions.length →
      (step exam s (Op.jump j)).currentIndex = j) ∧
    (∀ j, exam.questions.length ≤ j →
      (step exam s (Op.jump j)).currentIndex = s.currentIndex) ∧
    (∀ op a, (step exam { s with answers := a } op).currentIndex
      = (step exam s op).currentIndex) := by
  refine ⟨?_, ?_, ?_, ?_, ?_, ?_⟩
  · intro op
    rw [step_currentIndex]
    cases op <;> dsimp only
    case jump j => split <;> omega
    all_goals omega
  · rw [step_currentIndex]
  · rw [step_currentIndex]
  · intro j hj
    rw [step_currentIndex]
    exact if_pos hj
  · intro j hj
    rw [step_currentIndex]
    exact if_neg (by omega)
  · intro op a
    rw [step_currentIndex, step_currentIndex]

/-- Witness for C6 at a concrete two-question exam. -/
theorem navigation_clamped_witness :
    1 ≤ exTwo.questions.length ∧
    (initSession id exTwo).currentIndex < exTwo.questions.length ∧
    (step exTwo (initSession id exTwo) Op.next).currentIndex =
      min (exTwo.questions.length - 1) ((initSession id exTwo).currentIndex + 1) ∧
    (step exTwo (initSession id exTwo) (Op.jump 1)).currentIndex = 1 := by
  have h := navigation_clamped exTwo (initSession id exTwo) (by decide) (by decide)
  exact ⟨by decide, by decide, h.2.2.1, h.2.2.2.1 1 (by decide)⟩

/-! ## Which events create answer entries -/

theorem opRecords_record_iff (exam : Exam)
    (mopts : List (String × List LabeledOption)) (i : ℕ) (v k : String)
    (q : Question) (h : exam.questions[i]? = some q) :
    opRecords exam mopts (Op.record i v) k ↔ q.id = k := by
  simp only [opRecords, h, Option.some.injEq]
  constructor
  · rintro ⟨q', rfl, hq⟩
    exact hq
  · intro hq
    exact ⟨q, rfl, hq⟩

theorem opRecords_matchingSel_iff (exam : Exam)
    (mopts : List (String × List LabeledOption)) (i : ℕ) (l r k : String)
    (q : Question) (h : exam.questions[i]? = some q) :
    opRecords exam mopts (Op.matchingSel i l r) k ↔
      q.id = k ∧ q.type = QuestionType.MATCHING ∧
        (alookup q.id mopts).isSome = true := by
  simp only [opRecords, h, Option.some.injEq]
  constructor
  · rintro ⟨q', rfl, hq⟩
    exact hq
  · intro hq
    exact ⟨q, rfl, hq⟩

theorem mem_keys_step (exam : Exam) (s : Session) (op : Op) (k : String) :
    k ∈ (step exam s op).answers.map Prod.fst ↔
      k ∈ s.answers.map Prod.fst ∨ opRecords exam s.matchingOpts op k := by
  cases op with
  | tick => by_cases h : s.timeLeft ≤ 0 <;> simp [step, h, opRecords]
  | record i v =>
      cases h : exam.questions[i]? with
      | none => simp [step, h, opRecords]
      | some q =>
          simp only [step, h, handleInputChange]
          rw [mem_keys_objSet, opRecords_record_iff exam s.matchingOpts i v k q h]
          exact or_congr Iff.rfl eq_comm
  | matchingSel i l r =>
      cases h : exam.questions[i]? with
      | none => simp [step, h, opRecords]
      | some q =>
          rw [opRecords_matchingSel_iff exam s.matchingOpts i l r k q h]
          by_cases hg : q.type = QuestionType.MATCHING ∧
              (alookup q.id s.matchingOpts).isSome = true
          · simp only [step, h, if_pos hg, handleMatchingChange, handleInputChange]
            rw [mem_keys_objSet]
            exact or_congr Iff.rfl
              ⟨fun e => ⟨e.symm, hg.1, hg.2⟩, fun he => he.1.symm⟩
          · simp only [step, h, if_neg hg]
            constructor
            · exact Or.inl
            · rintro (hm | ⟨_, hty, hop⟩)
              · exact hm
              · exact absurd ⟨hty, hop⟩ hg
  | flag i => cases h : exam.questions[i]? <;> simp [step, h, toggleFlag, opRecords]
  | prev => simp [step, opRecords]
  | next => simp [step, opRecords]
  | jump i => by_cases h : i < exam.questions.length <;> simp [step, h, opRecords]
  | submit => simp [step, opRecords]

theorem mem_keys_runOps (exam : Exam) (ops : List Op) (s : Session) (k : String) :
    k ∈ (runOps exam ops s).answers.map Prod.fst ↔
      k ∈ s.answers.map Prod.fst ∨
        ∃ op ∈ ops, opRecords exam s.matchingOpts op k := by
  induction ops generalizing s with
  | nil => simp [runOps]
  | cons op ops ih =>
      show k ∈ (runOps exam ops (step exam s op)).answers.map Prod.fst ↔ _
      rw [ih (step exam s op), step_matchingOpts, mem_keys_step,
        List.exists_mem_cons_iff]
      tauto

/-! ## Claim C3 — partial submission hands exactly the recorded answers -/

/-- C3: appending an explicit submit to any run of events marks the
session submitted and hands the caller exactly the current answers
object, with no precondition on how many questions are answered; and the
answers object has an entry exactly for the question ids some record or
matching-selection event wrote during the run. -/
theorem submit_partial_exact_keys (shuffle : List String → List String)
    (exam : Exam) (ops : List Op) :
    (runOps exam (ops ++ [Op.submit]) (initSession shuffle exam)).submitted = true ∧
    (runOps exam (ops ++ [Op.submit]) (initSession shuffle exam)).handed =
      some ((runOps exam ops (initSession shuffle exam)).answers) ∧
    (∀ k, k ∈ ((runOps exam ops (initSession shuffle exam)).answers.map Prod.fst) ↔
      ∃ op ∈ ops, opRecords exam (mkMatchingOptionsMap shuffle exam) op k) := by
  refine ⟨?_, ?_, ?_⟩
  · rw [runOps_submitted]
    simp [isSubmit]
  · show ((ops ++ [Op.submit]).foldl (step exam) _).handed = _
    rw [List.foldl_append]
    rfl
  · intro k
    rw [mem_keys_runOps]
    simp [initSession]

/-! ## The answers object only holds question ids, each once -/

theorem goodKeys_objSet (exam : Exam) (m : List (String × String))
    (k v : String) (h : goodKeys exam m)
    (hk : k ∈ exam.questions.map Question.id) :
    goodKeys exam (objSet m k v) := by
  refine ⟨nodup_keys_objSet _ _ _ h.1, ?_⟩
  intro a ha
  rcases (mem_keys_objSet _ _ _ _).mp ha with h1 | rfl
  · exact h.2 a h1
  · exact hk

theorem goodKeys_step (exam : Exam) (s : Session) (op : Op)
    (h : goodKeys exam s.answers) : goodKeys exam (step exam s op).answers := by
  cases op with
  | tick => by_cases ht : s.timeLeft ≤ 0 <;> simpa [step, ht] using h
  | record i v =>
      cases hq : exam.questions[i]? with
      | none => simpa [step, hq] using h
      | some q =>
          have hid : q.id ∈ exam.questions.map Question.id :=
            List.mem_map_of_mem _ (List.getElem?_mem hq)
          simpa [step, hq, handleInputChange] using
            goodKeys_objSet exam s.answers q.id v h hid
  | matchingSel i l r =>
      cases hq : exam.questions[i]? with
      | none => simpa [step, hq] using h
      | some q =>
          by_cases hg : q.type = QuestionType.MATCHING ∧
              (alookup q.id s.matchingOpts).isSome = true
          · have hid : q.id ∈ exam.questions.map Question.id :=
              List.mem_map_of_mem _ (List.getElem?_mem hq)
            simpa [step, hq, if_pos hg, handleMatchingChange, handleInputChange]
              using goodKeys_objSet exam s.answers q.id _ h hid
          · simpa [step, hq, if_neg hg] using h
  | flag i => cases hq : exam.questions[i]? <;> simpa [step, hq, toggleFlag] using h
  | prev => simpa [step] using h
  | next => simpa [step] using h
  | jump i => by_cases hj : i < exam.questions.length <;> simpa [step, hj] using h
  | submit => simpa [step] using h

theorem goodKeys_runOps (exam : Exam) (ops : List Op) (s : Session)
    (h : goodKeys exam s.answers) : goodKeys exam (runOps exam ops s).answers := by
  induction ops generalizing s with
  | nil => exact h
  | cons op ops ih => exact ih (step exam s op) (goodKeys_step exam s op h)

theorem length_filter_eq_of_iff (ids keys : List String) (p : String → Bool)
    (hids : ids.Nodup) (hkeys : keys.Nodup) (hsub : ∀ k ∈ keys, k ∈ ids)
    (hp : ∀ x, p x = true ↔ x ∈ keys) :
    (ids.filter p).length = keys.length := by
  have hnd : (ids.filter p).Nodup := hids.filter _
  have hperm : (ids.filter p).Perm keys := by
    rw [List.perm_ext_iff_of_nodup hnd hkeys]
    intro a
    rw [List.mem_filter, hp]
    exact ⟨fun h => h.2, fun h => ⟨hsub a h, h⟩⟩
  exact hperm.length_eq

theorem entryCount_eq_length (exam : Exam) (m : List (String × String))
    (hids : (exam.questions.map Question.id).Nodup) (hg : goodKeys exam m) :
    entryCount exam m = m.length := by
  have hmain : ((exam.questions.map Question.id).filter
      (fun x => (alookup x m).isSome)).length = (m.map Prod.fst).length :=
    length_filter_eq_of_iff (exam.questions.map Question.id) (m.map Prod.fst)
      (fun x => (alookup x m).isSome) hids hg.1 hg.2
      (fun x => alookup_isSome_iff m x)
  have hcomp : ((fun x => (alookup x m).isSome) ∘ Question.id)
      = (fun q : Question => (alookup q.id m).isSome) := rfl
  calc (exam.questions.filter fun q => (alookup q.id m).isSome).length
      = ((exam.questions.map Question.id).filter
          (fun x => (alookup x m).isSome)).length := by
        rw [List.filter_map, List.length_map, hcomp]
    _ = (m.map Prod.fst).length := hmain
    _ = m.length := List.length_map m Prod.fst

/-! ## Claim C7 — the progress metric -/

theorem jsRound_eq (q : ℚ) (n : ℤ) (h1 : (n : ℚ) ≤ q + 1 / 2)
    (h2 : q + 1 / 2 < n + 1) : jsRound q = n := by
  rw [jsRound]
  exact Int.floor_eq_iff.mpr ⟨h1, h2⟩

/-- C7 counterexample: on a one-question exam, recording the empty string
as the answer makes the code's displayed progress `100`, while the spec's
metric (non-empty entries only) is `0`. -/
theorem progress_counts_empty_answer :
    progress exFill (runOps exFill [Op.record 0 ""] (initSession id exFill)) = 100 ∧
    specProgress exFill
      (runOps exFill [Op.record 0 ""] (initSession id exFill)).answers = 0 ∧
    (100 : ℤ) ≠ 0 := by
  have ha : (runOps exFill [Op.record 0 ""] (initSession id exFill)).answers
      = [("q1", "")] := by decide
  refine ⟨?_, ?_, by decide⟩
  · rw [progress, ha]
    apply jsRound_eq
    · simp [exFill]
    · simp [exFill]
      norm_num
  · rw [specProgress, ha]
    have hf : exFill.questions.filter
        (fun q => ((alookup q.id [("q1", "")]).getD "") ≠ "") = [] := by decide
    rw [hf]
    apply jsRound_eq
    · norm_num
    · norm_num

/-- C7 amended: the displayed progress equals
`round(100 * k / N)` where `k` counts the questions that have *any* entry
in the answers mapping — an entry holding the empty string still counts
(the code counts the object's keys, not its non-empty values). -/
theorem progress_counts_entries (shuffle : List String → List String)
    (exam : Exam) (ops : List Op)
    (hN : 1 ≤ exam.questions.length)
    (hids : (exam.questions.map Question.id).Nodup) :
    progress exam (runOps exam ops (initSession shuffle exam)) =
      jsRound (100 *
        ((entryCount exam (runOps exam ops (initSession shuffle exam)).answers : ℚ) /
          (exam.questions.length : ℚ))) := by
  have hg : goodKeys exam (runOps exam ops (initSession shuffle exam)).answers := by
    refine goodKeys_runOps exam ops _ ⟨?_, ?_⟩ <;> simp [initSession]
  rw [progress, entryCount_eq_length exam _ hids hg]
  congr 1
  ring

/-- Witness for the amended C7 on a concrete run. -/
theorem progress_counts_entries_witness :
    1 ≤ exFill.questions.length ∧
    (exFill.questions.map Question.id).Nodup ∧
    progress exFill (runOps exFill [Op.record 0 "Paris"] (initSession id exFill)) =
      jsRound (100 *
        ((entryCount exFill
            (runOps exFill [Op.record 0 "Paris"] (initSession id exFill)).answers : ℚ) /
          (exFill.questions.length : ℚ))) := by
  exact ⟨by decide, by decide,
    progress_counts_entries id exFill [Op.record 0 "Paris"] (by decide) (by decide)⟩

/-! ## Claim C4 — local percentage and grade computation -/

/-- C4: the locally computed percentage is `round(100 * score / total)`;
the grade boundaries are exactly `≥90 → A+`, `80-89 → A`, `70-79 → B`,
`60-69 → C`, below 60 → F; passing holds exactly when the percentage is
at least 60; and a 1-of-2-points result yields 50% and grade F. -/
theorem grade_boundaries (r : GradingResult) (ht : 0 < r.totalPoints) :
    resultPercentage r = jsRound (100 * r.score / r.totalPoints) ∧
    (∀ p : ℤ, (getGrade p = "A+" ↔ 90 ≤ p) ∧ (getGrade p = "A" ↔ 80 ≤ p ∧ p < 90) ∧
      (getGrade p = "B" ↔ 70 ≤ p ∧ p < 80) ∧ (getGrade p = "C" ↔ 60 ≤ p ∧ p < 70) ∧
      (getGrade p = "F" ↔ p < 60)) ∧
    (isPassed r = true ↔ 60 ≤ resultPercentage r) ∧
    resultPercentage rScenario = 50 ∧
    getGrade (resultPercentage rScenario) = "F" := by
  have h50 : resultPercentage rScenario = 50 := by
    have harg : rScenario.score / rScenario.totalPoints * 100 = 50 := by
      norm_num [rScenario]
    rw [resultPercentage, harg]
    apply jsRound_eq <;> norm_num
  refine ⟨?_, ?_, ?_, h50, ?_⟩
  · rw [resultPercentage]
    congr 1
    ring
  · intro p
    refine ⟨?_, ?_, ?_, ?_, ?_⟩ <;>
      (simp only [getGrade]; split_ifs <;> simp +decide <;> omega)
  · rw [isPassed]
    simp
  · rw [h50]
    decide

/-- Witness for C4 at the spec's 1-of-2-points scenario. -/
theorem grade_boundaries_witness :
    (0 : ℚ) < rScenario.totalPoints ∧
    resultPercentage rScenario = 50 ∧
    getGrade (resultPercentage rScenario) = "F" := by
  have h := grade_boundaries rScenario (by decide)
  exact ⟨by decide, h.2.2.2.1, h.2.2.2.2⟩

/-! ## Claim C1 — the matching answer encoding -/

/-- C1 evaluated at the failing input: on the matching question `q1` with
pairs `x↦alpha`, `y↦beta` and identity shuffle (labels `A↦alpha`,
`B↦beta`), selecting `A` for `x` and then `B` for `y` records the JSON
string mapping `x` to the *label* `"A"` — not to the response text
`"alpha"` as the claim requires.  With only a single left item ever
selected the resolved text is stored, as the last conjunct shows. -/
theorem matching_answer_keeps_stale_label :
    alookup "q1" (runOps exMatching
        [Op.matchingSel 0 "x" "A", Op.matchingSel 0 "y" "B"]
        (initSession id exMatching)).answers =
      some "\x7b\"x\":\"A\",\"y\":\"beta\"\x7d" ∧
    alookup "q1" (runOps exMatching
        [Op.matchingSel 0 "x" "A", Op.matchingSel 0 "y" "B"]
        (initSession id exMatching)).answers ≠
      some "\x7b\"x\":\"alpha\",\"y\":\"beta\"\x7d" ∧
    alookup "q1" (runOps exMatching [Op.matchingSel 0 "x" "A"]
        (initSession id exMatching)).answers =
      some "\x7b\"x\":\"alpha\"\x7d" := by
  refine ⟨by decide, by decide, by decide⟩

/-! ## Claim C8 — failed calls leave prior state intact -/

/-- C8: a failed parse keeps the loaded exam, the history and the results
unchanged and returns the shell to the interactive `idle` state; a failed
grade keeps the loaded exam, the results and the history unchanged (the
attempt's answers live in the still-mounted session, which the shell does
not touch) and, whenever an exam is loaded, also returns to `idle` so the
submission can be retried. -/
theorem failures_preserve_state (st : AppState) (msg : String) :
    (handleProcessInput st (Except.error msg)).exam = st.exam ∧
    (handleProcessInput st (Except.error msg)).history = st.history ∧
    (handleProcessInput st (Except.error msg)).results = st.results ∧
    (handleProcessInput st (Except.error msg)).loadingStatus = LoadingStatus.idle ∧
    (handleSubmitExam st (Except.error msg)).exam = st.exam ∧
    (handleSubmitExam st (Except.error msg)).results = st.results ∧
    (handleSubmitExam st (Except.error msg)).history = st.history ∧
    (st.exam.isSome = true →
      (handleSubmitExam st (Except.error msg)).loadingStatus = LoadingStatus.idle) := by
  cases h : st.exam <;> simp [handleProcessInput, handleSubmitExam, h]

/-- Witness for C8 at a concrete loaded state. -/
theorem failures_preserve_state_witness :
    stApp.exam.isSome = true ∧
    (handleSubmitExam stApp (Except.error "boom")).loadingStatus
      = LoadingStatus.idle ∧
    (handleProcessInput stApp (Except.error "boom")).history = stApp.history ∧
    (handleProcessInput stApp (Except.error "boom")).exam = stApp.exam := by
  have h := failures_preserve_state stApp "boom"
  exact ⟨rfl, h.2.2.2.2.2.2.2 rfl, h.2.1, h.1⟩

/-! ## Claim C9 — renaming touches only the title -/

/-- C9: renaming keeps the history's length; the exam at every position
keeps its identifier, creation timestamp and entire question list; an
exam whose id differs from the renamed one is completely unchanged, and
the one with the renamed id gets exactly the new title. -/
theorem rename_preserves_all_but_title (st : AppState) (id newTitle : String) :
    (handleRenameExam st id newTitle).history.length = st.history.length ∧
    ∀ (i : ℕ) (e e' : Exam), st.history[i]? = some e →
      (handleRenameExam st id newTitle).history[i]? = some e' →
      e'.id = e.id ∧ e'.createdAt = e.createdAt ∧ e'.questions = e.questions ∧
      (e.id ≠ id → e' = e) ∧ (e.id = id → e'.title = newTitle) := by
  constructor
  · simp [handleRenameExam]
  · intro i e e' h1 h2
    have h3 : (handleRenameExam st id newTitle).history[i]? =
        some (if e.id = id then { e with title := newTitle } else e) := by
      simp [handleRenameExam, List.getElem?_map, h1]
    rw [h2] at h3
    have he : e' = if e.id = id then { e with title := newTitle } else e :=
      Option.some.inj h3
    by_cases hid : e.id = id
    · rw [if_pos hid] at he
      subst he
      exact ⟨rfl, rfl, rfl, fun hne => absurd hid hne, fun _ => rfl⟩
    · rw [if_neg hid] at he
      subst he
      exact ⟨rfl, rfl, rfl, fun _ => rfl, fun h => absurd h hid⟩

/-- Witness for C9: renaming the concrete history entry. -/
theorem rename_preserves_all_but_title_witness :
    (handleRenameExam stApp "e-two" "Renamed").history.length
      = stApp.history.length ∧
    exTwoRenamed.id = exTwo.id ∧
    exTwoRenamed.createdAt = exTwo.createdAt ∧
    exTwoRenamed.questions = exTwo.questions ∧
    exTwoRenamed.title = "Renamed" := by
  have h := rename_preserves_all_but_title stApp "e-two" "Renamed"
  have h2 := h.2 0 exTwo exTwoRenamed rfl (by decide)
  exact ⟨h.1, h2.1, h2.2.1, h2.2.2.1, h2.2.2.2.2 rfl⟩

/-! ## Claim C10 — the labeled response list -/

/-- C10: whatever permutation the random comparator sort produces, the
labeled response list of a matching question holds exactly the question's
right-side texts (a permutation, same length), its labels are the
consecutive characters from `A` assigned by shuffled position, and the
memoized options map held in the session is never changed by any run of
events (computed once per loaded exam, never recomputed mid-attempt). -/
theorem matching_options_shuffle_labels
    (shuffle : List String → List String)
    (hshuffle : ∀ l, (shuffle l).Perm l)
    (q : Question) (ps : List MatchingPair)
    (hq : q.matchingPairs = some ps) :
    ((mkMatchingOptions shuffle q).map LabeledOption.text).Perm
      (ps.map MatchingPair.right) ∧
    (mkMatchingOptions shuffle q).map LabeledOption.id =
      (List.range ps.length).map labelOf ∧
    (mkMatchingOptions shuffle q).length = ps.length ∧
    (∀ exam ops s, (runOps exam ops s).matchingOpts = s.matchingOpts) := by
  have hlen : (shuffle (ps.map MatchingPair.right)).length = ps.length := by
    rw [(hshuffle _).length_eq, List.length_map]
  have hdef : mkMatchingOptions shuffle q =
      (shuffle (ps.map MatchingPair.right)).enum.map
        (fun p => { id := labelOf p.1, text := p.2 }) := by
    rw [mkMatchingOptions, hq]
  refine ⟨?_, ?_, ?_, fun exam ops s => runOps_matchingOpts exam ops s⟩
  · rw [hdef, List.map_map]
    have hc : (LabeledOption.text ∘ fun p : ℕ × String =>
        ({ id := labelOf p.1, text := p.2 } : LabeledOption)) = Prod.snd := rfl
    rw [hc, List.enum_map_snd]
    exact hshuffle _
  · rw [hdef, List.map_map]
    have hc : (LabeledOption.id ∘ fun p : ℕ × String =>
        ({ id := labelOf p.1, text := p.2 } : LabeledOption))
        = labelOf ∘ Prod.fst := rfl
    rw [hc, ← List.map_map, List.enum_map_fst, hlen]
  · rw [hdef, List.length_map, List.enum_length, hlen]

/-- Witness for C10 at the concrete matching question with the identity
shuffle. -/
theorem matching_options_shuffle_labels_witness :
    qM.matchingPairs = some psM ∧
    ((mkMatchingOptions id qM).map LabeledOption.text).Perm
      (psM.map MatchingPair.right) ∧
    (mkMatchingOptions id qM).map LabeledOption.id =
      (List.range psM.length).map labelOf ∧
    (mkMatchingOptions id qM).length = psM.length := by
  have h := matching_options_shuffle_labels id (fun l => List.Perm.refl l) qM psM rfl
  exact ⟨rfl, h.1, h.2.1, h.2.2.1⟩

end ExamApp
